import Mathlib

/-!
Verification of the aggregation-and-charge-control engine of
dbus-aggregate-batteries (src/functions.py and src/aggregatebatteries.py).

Numeric DBus values are modelled as rationals (ℚ); values that may be
absent on the bus (Python None) are modelled as Option; Python exceptions
and sys.exit are modelled as the none case of an Option-valued result.

The first part of the file embeds the source definitions; the second part
states and proves the properties, one numbered theorem per claim together
with its witness or counterexample.
-/

/-! ## Definitions embedded from the source -/

/-- One comparison step of Python's builtin max: starting from the first
element, each further element x replaces the accumulator m when x > m.
Comparing None with an integer raises TypeError, modelled as none. -/
def pyMaxStep (m x : Option Int) : Option (Option Int) :=
  match m, x with
  | some a, some b => some (some (if a < b then b else a))
  | _, _ => none

/-- Python's builtin max over a list of optional integers: ValueError on an
empty list (none), TypeError as soon as a comparison involves None (none);
a singleton list is returned without any comparison. -/
def pyMax (l : List (Option Int)) : Option (Option Int) :=
  match l with
  | [] => none
  | x :: xs => xs.foldlM pyMaxStep x

/-- Functions._max (src/functions.py lines 12-24): return max(x), and on
TypeError or ValueError return None. -/
def fnMax (l : List (Option Int)) : Option Int :=
  match pyMax l with
  | some v => v
  | none => none

/-- Modelled from the spec wording of C1 (not from the source): the maximum
of the values that are present, with absent entries excluded; an all-absent
list yields absent. Used only to compare the source's aggregate against
the claimed one. -/
def maxPresent (l : List (Option Int)) : Option Int :=
  (l.filterMap id).max?

/-- Inner loop of Functions._interpolate (src/functions.py lines 63-65):
for each adjacent pair, if x ≤ X[i+1] return the linear interpolation on
segment i; falling through the whole loop returns Python None (none). -/
def interpSearch : List ℚ → List ℚ → ℚ → Option ℚ
  | x0 :: x1 :: xs, y0 :: y1 :: ys, x =>
    if x ≤ x1 then some (y0 + (y1 - y0) / (x1 - x0) * (x - x0))
    else interpSearch (x1 :: xs) (y1 :: ys) x
  | _, _, _ => none

/-- Functions._interpolate (src/functions.py lines 40-68): unequal-length
tables call sys.exit (none); on an empty table Python raises IndexError at
X[0] (none); otherwise saturate below X[0] and above X[len-1] and
interpolate linearly in between. -/
def interpolate (X Y : List ℚ) (x : ℚ) : Option ℚ :=
  if X.length = Y.length then
    match X, Y with
    | x0 :: xs, y0 :: ys =>
      if x ≤ x0 then some y0
      else if (x0 :: xs).getLast (List.cons_ne_nil x0 xs) ≤ x then
        some ((y0 :: ys).getLast (List.cons_ne_nil y0 ys))
      else interpSearch (x0 :: xs) (y0 :: ys) x
    | _, _ => none
  else none

/-- One Coulomb-counter update: charging (current > 0) integrates with the
configured efficiency, discharging without it; the result is clamped via
max with 0 and then min with InstalledCapacity, exactly as in the source. -/
def updateOwnCharge (ownCharge current deltaTime efficiency installedCapacity : ℚ) : ℚ :=
  let charged := if current > 0 then ownCharge + current * (deltaTime / 3600) * efficiency
    else ownCharge + current * (deltaTime / 3600)
  min (max charged 0) installedCapacity

/-- Sum of the per-cell excess above the configured MAX_CELL_VOLTAGE for
one battery (src lines 1455-1461): cells above the ceiling contribute
their overshoot, the rest contribute nothing. -/
def cellOvervoltage (ceiling : ℚ) (cells : List ℚ) : ℚ :=
  cells.foldl (fun acc c => if c > ceiling then acc + (c - ceiling) else acc) 0

/-- chargeVoltageReduced_list entry for one battery (src lines 1462-1464):
its cell-sum voltage minus its total cell overvoltage. -/
def chargeVoltageReduced (ceiling voltagesSum : ℚ) (cells : List ℚ) : ℚ :=
  voltagesSum - cellOvervoltage ceiling cells

/-- Published MaxChargeVoltage in self-managed mode (src lines 1696-1724,
DBus writes elided): while MaxCellVoltage ≥ MAX_CELL_VOLTAGE it is
min(min(chargeVoltageReduced_list), ChargeVoltageBattery); Python min of
an empty list raises (none); otherwise it is ChargeVoltageBattery. -/
def maxChargeVoltagePublished (ceiling maxCellVoltage chargeVoltageBattery : ℚ)
    (chargeVoltageReducedList : List ℚ) : Option ℚ :=
  if maxCellVoltage ≥ ceiling then
    (chargeVoltageReducedList.min?).map (fun m => min m chargeVoltageBattery)
  else some chargeVoltageBattery

/-- Configuration for the self-managed discharge limit: MIN_CELL_VOLTAGE,
MIN_CELL_HYSTERESIS, MAX_DISCHARGE_CURRENT and the two breakpoint tables
CELL_DISCHARGE_LIMITING_VOLTAGE / CELL_DISCHARGE_LIMITED_CURRENT. -/
structure DischargeCfg where
  minCellVoltage : ℚ
  minCellHysteresis : ℚ
  maxDischargeCurrent : ℚ
  limitingVoltage : List ℚ
  limitedCurrent : List ℚ

/-- Hysteresis update of the _fullyDischarged flag (src lines 1762-1768):
latch when the minimum cell voltage is at or below the floor, clear only
when it is strictly above floor plus hysteresis margin, otherwise keep. -/
def fullyDischargedStep (cfg : DischargeCfg) (fd : Bool) (minCellV : ℚ) : Bool :=
  if minCellV ≤ cfg.minCellVoltage then true
  else if cfg.minCellVoltage + cfg.minCellHysteresis < minCellV then false
  else fd

/-- Published MaxDischargeCurrent (src lines 1770-1780): zero while any
module blocks discharge or the hysteresis flag is set, otherwise
MAX_DISCHARGE_CURRENT times the interpolated fraction at the minimum cell
voltage. -/
def maxDischargeCurrentPublished (cfg : DischargeCfg) (fd : Bool)
    (nrBlockingDischarge : ℕ) (minCellV : ℚ) : Option ℚ :=
  if 0 < nrBlockingDischarge ∨ fd = true then some 0
  else (interpolate cfg.limitingVoltage cfg.limitedCurrent minCellV).map
    (fun y => cfg.maxDischargeCurrent * y)

/-- One cycle of the discharge-limit logic: update the hysteresis flag,
then publish the limit computed from the updated flag. -/
def dischargeCycle (cfg : DischargeCfg) (fd : Bool) (nrBlockingDischarge : ℕ)
    (minCellV : ℚ) : Bool × Option ℚ :=
  let fd2 := fullyDischargedStep cfg fd minCellV
  (fd2, maxDischargeCurrentPublished cfg fd2 nrBlockingDischarge minCellV)

/-- Run of the discharge-limit logic over a list of cycles, each given as
(modules blocking discharge, minimum cell voltage); yields the published
limit of every cycle. -/
def dischargeRun (cfg : DischargeCfg) (fd : Bool) : List (ℕ × ℚ) → List (Option ℚ)
  | [] => []
  | c :: rest =>
    (dischargeCycle cfg fd c.1 c.2).2 :: dischargeRun cfg (dischargeCycle cfg fd c.1 c.2).1 rest

/-- Concrete discharge configuration for the C4 witness: floor 2, margin
2, maximum 40 A, breakpoints [2, 3] with fractions [0, 1]. -/
def dischargeCfgW : DischargeCfg :=
  ⟨2, 2, 40, [2, 3], [0, 1]⟩

/-- One battery's per-cycle reading, restricted to the fields the
averaging rules use. -/
structure BatteryReading where
  voltage : ℚ
  temperature : ℚ
  soc : ℚ
  installedCapacity : ℚ

/-- Accumulated Voltage over the read loop (one `Voltage += ...` per
battery, starting from 0). -/
def accVoltage (bats : List BatteryReading) : ℚ :=
  bats.foldl (fun acc b => acc + b.voltage) 0

/-- Accumulated Temperature over the read loop. -/
def accTemperature (bats : List BatteryReading) : ℚ :=
  bats.foldl (fun acc b => acc + b.temperature) 0

/-- Accumulated InstalledCapacity over the read loop. -/
def accInstalledCapacity (bats : List BatteryReading) : ℚ :=
  bats.foldl (fun acc b => acc + b.installedCapacity) 0

/-- Accumulated Soc over the read loop when OWN_SOC is off: each battery
contributes its Soc times its InstalledCapacity. -/
def accSocWeighted (bats : List BatteryReading) : ℚ :=
  bats.foldl (fun acc b => acc + b.soc * b.installedCapacity) 0

/-- Published aggregate voltage (src line 1534): the accumulated voltage
divided by NR_OF_BATTERIES; discovery guarantees the update loop only
starts once the number of discovered batteries equals NR_OF_BATTERIES
(src lines 422-433), so that count is the length of the reading list. -/
def aggVoltage (bats : List BatteryReading) : ℚ :=
  accVoltage bats / bats.length

/-- Published aggregate temperature (src line 1535). -/
def aggTemperature (bats : List BatteryReading) : ℚ :=
  accTemperature bats / bats.length

/-- Published aggregate SoC when not taken from the Coulomb counter (src
line 1821): the weighted Soc sum divided by the total installed
capacity. -/
def aggSocWeighted (bats : List BatteryReading) : ℚ :=
  accSocWeighted bats / accInstalledCapacity bats

/-- Cache state of the external OvervoltageFeedIn setting in
self._DCfeedActive: Python False initially and after a re-enable
(notCached), or the value read from the settings service (cached).
Only a cached truthy value allows a re-enable. -/
inductive DCfeedCache where
  | notCached
  | cached (enabled : Bool)
deriving DecidableEq

/-- Latch and cache carried across cycles by the dynamic-CVL logic. -/
structure DynCVLState where
  dynamicCVL : Bool
  dcFeed : DCfeedCache
deriving DecidableEq

/-- External operations performed by one cycle of the dynamic-CVL block:
reads of the OvervoltageFeedIn setting, writes of 0 (disable) and writes
of 1 (enable). -/
structure DynCVLWrites where
  reads : ℕ
  disableWrites : ℕ
  enableWrites : ℕ
deriving DecidableEq

/-- One cycle of the dynamic-CVL feed-in coordination (src lines
1696-1746): while MaxCellVoltage ≥ MAX_CELL_VOLTAGE the latch is set, the
setting is read once on the rising edge when not cached, and a disable
write is issued; otherwise the latch clears and, when the cell spread is
under CELL_DIFF_MAX and the cached value is truthy, one enable write is
issued and the cache resets to Python False. -/
def dynCVLStep (ceiling cellDiffMax : ℚ) (feedSetting : Bool) (st : DynCVLState)
    (maxCellV minCellV : ℚ) : DynCVLState × DynCVLWrites :=
  if ceiling ≤ maxCellV then
    if st.dynamicCVL then (⟨true, st.dcFeed⟩, ⟨0, 1, 0⟩)
    else
      match st.dcFeed with
      | .notCached => (⟨true, .cached feedSetting⟩, ⟨1, 1, 0⟩)
      | .cached v => (⟨true, .cached v⟩, ⟨0, 1, 0⟩)
  else
    if maxCellV - minCellV < cellDiffMax ∧ st.dcFeed = .cached true then
      (⟨false, .notCached⟩, ⟨0, 0, 1⟩)
    else (⟨false, st.dcFeed⟩, ⟨0, 0, 0⟩)

/-- Run of the dynamic-CVL block over cycles given as (setting value at
read time, max cell voltage, min cell voltage). -/
def dynCVLRun (ceiling cellDiffMax : ℚ) (st : DynCVLState) :
    List (Bool × ℚ × ℚ) → List DynCVLWrites
  | [] => []
  | c :: rest =>
    (dynCVLStep ceiling cellDiffMax c.1 st c.2.1 c.2.2).2 ::
      dynCVLRun ceiling cellDiffMax (dynCVLStep ceiling cellDiffMax c.1 st c.2.1 c.2.2).1 rest

/-- Total number of disable writes over a run. -/
def totalDisableWrites (ws : List DynCVLWrites) : ℕ :=
  (ws.map (fun w => w.disableWrites)).sum

/-- Number of rising edges of the dynamic-CVL latch over a trace: cycles
whose max cell voltage reaches the ceiling while the latch is off. -/
def risingEdgeCount (ceiling : ℚ) (dyn : Bool) : List (Bool × ℚ × ℚ) → ℕ
  | [] => 0
  | c :: rest =>
    (if ceiling ≤ c.2.1 ∧ dyn = false then 1 else 0)
      + risingEdgeCount ceiling (if ceiling ≤ c.2.1 then true else false) rest

/-- Configuration of the balancing-voltage logic: the month's normal CVL
(NR_OF_CELLS_PER_BATTERY times the CHARGE_VOLTAGE_LIST entry), the
balancing CVL (cells times BALANCING_VOLTAGE), BALANCING_REPETITION in
days, and CELL_DIFF_MAX. -/
structure BalancingCfg where
  cvlNormal : ℚ
  cvlBalancing : ℚ
  balancingRepetition : ℤ
  cellDiffMax : ℚ

/-- Outcome of one pass through the balancing block: the new value of
self._balancing, the resulting ChargeVoltageBattery, and the day written
to the last_balancing file when one is persisted. -/
structure BalancingResult where
  balancing : ℕ
  chargeVoltageBattery : ℚ
  persistedDay : Option ℤ
deriving DecidableEq

/-- Days since the last recorded balancing (src lines 1628-1632):
today minus the stored day, plus 365 when negative (year change). -/
def timeUnbalanced (today lastBalancing : ℤ) : ℤ :=
  if today - lastBalancing < 0 then today - lastBalancing + 365
  else today - lastBalancing

/-- One pass through the balancing block (src lines 1626-1690), with the
four sequential if-statements of the CVL_BALANCING > CVL_NORMAL branch
translated in order, and the degenerate elif branch afterwards. -/
def balancingStep (cfg : BalancingCfg) (bal : ℕ) (lastBalancing today : ℤ)
    (voltage maxCellV minCellV : ℚ) : BalancingResult :=
  let tu := timeUnbalanced today lastBalancing
  if cfg.cvlNormal < cfg.cvlBalancing then
    let s1 : ℕ := if bal = 0 ∧ cfg.balancingRepetition ≤ tu then 1 else bal
    let p1 : ℕ × ℚ :=
      if s1 = 1 then
        (if cfg.cvlBalancing ≤ voltage ∧ maxCellV - minCellV < cfg.cellDiffMax then 2 else 1,
         cfg.cvlBalancing)
      else (s1, cfg.cvlNormal)
    let p2 : ℕ × ℚ × Option ℤ :=
      if 2 ≤ p1.1 then
        if voltage ≤ cfg.cvlNormal then (0, cfg.cvlBalancing, some today)
        else (p1.1, cfg.cvlBalancing, none)
      else (p1.1, p1.2, none)
    ⟨p2.1, if p2.1 = 0 then cfg.cvlNormal else p2.2.1, p2.2.2⟩
  else
    if 0 < tu ∧ cfg.cvlBalancing ≤ voltage ∧ maxCellV - minCellV < cfg.cellDiffMax then
      ⟨bal, cfg.cvlNormal, some today⟩
    else ⟨bal, cfg.cvlNormal, none⟩

/-- Result of one _update invocation: sys.exit (fatal), an aborted cycle
returning True for the next timer tick (retry), or a completed cycle that
publishes its snapshot and returns True. -/
inductive CycleOutcome (α : Type) where
  | fatal
  | retry
  | published (snap : α)
deriving DecidableEq

/-- One _update invocation around the read block (src lines 1514-1527):
on any read exception the counter self._readTrials is incremented, the
process exits when the counter exceeds READ_TRIALS and the cycle is
skipped otherwise; after a fully successful read pass the counter is
reset to 0 and the snapshot is published. -/
def updateCycle {α : Type} (readTrials budget : ℕ) (readResult : Option α) :
    ℕ × CycleOutcome α :=
  match readResult with
  | none =>
    if budget < readTrials + 1 then (readTrials + 1, .fatal)
    else (readTrials + 1, .retry)
  | some snap => (0, .published snap)

/-- Run of _update invocations over a list of read results, threading the
failure counter. -/
def updateRun {α : Type} (budget : ℕ) : ℕ → List (Option α) → List (CycleOutcome α)
  | _, [] => []
  | t, r :: rest =>
    (updateCycle t budget r).2 :: updateRun budget (updateCycle t budget r).1 rest

/-- Continuation chosen by the decision tail of a discovery callback:
re-poll the same state on the next timer tick (return True), terminate
the process (sys.exit), or schedule the next phase and stop this timer
(return False). -/
inductive FindNext where
  | repoll
  | fatal
  | toFindBatteries
  | toFindMultis
  | toFindMppts
  | toUpdate
deriving DecidableEq

/-- Decision tail of _find_settings (src lines 311-325): found resets the
trial counter and advances; otherwise one more trial while the counter is
below SEARCH_TRIALS, else exit. -/
def findSettingsStep (searchTrials budget : ℕ) (settingsFound : Bool) : ℕ × FindNext :=
  if settingsFound then (0, .toFindBatteries)
  else if searchTrials < budget then (searchTrials + 1, .repoll)
  else (searchTrials, .fatal)

/-- Decision tail of _find_batteries (src lines 422-442): the discovered
count must equal NR_OF_BATTERIES; then the Victron-current option decides
the next phase; otherwise re-poll under the trial budget, else exit. -/
def findBatteriesStep (searchTrials budget batteriesCount nrOfBatteries : ℕ)
    (currentFromVictron : Bool) : ℕ × FindNext :=
  if batteriesCount = nrOfBatteries then
    if currentFromVictron then (0, .toFindMultis) else (searchTrials, .toUpdate)
  else if searchTrials < budget then (searchTrials + 1, .repoll)
  else (searchTrials, .fatal)

/-- Decision tail of _find_multis exactly as written (src lines 469-488):
when a multi is found, advance to _find_mppts; when none is found, the
else branch schedules the _update loop; the unconditional return False on
line 479 then ends the callback, leaving the trial-increment and exit
code of lines 480-488 unreachable. -/
def findMultisStep (searchTrials budget : ℕ) (multiFound : Bool) : ℕ × FindNext :=
  if multiFound then (0, .toFindMppts)
  else (searchTrials, .toUpdate)

/-- Decision tail of _find_mppts (src lines 518-530): the discovered count
must equal NR_OF_MPPTS to start the update loop; otherwise re-poll under
the trial budget, else exit. -/
def findMpptsStep (searchTrials budget mpptsCount nrOfMppts : ℕ) : ℕ × FindNext :=
  if mpptsCount = nrOfMppts then (searchTrials, .toUpdate)
  else if searchTrials < budget then (searchTrials + 1, .repoll)
  else (searchTrials, .fatal)

/-! ## Properties -/

theorem pyMaxStep_some (a b : Int) : pyMaxStep (some a) (some b) = some (some (max a b)) := by
  have h : (if a < b then b else a) = max a b := by
    rcases le_or_lt b a with h | h
    · rw [if_neg (not_lt.mpr h), max_eq_left h]
    · rw [if_pos h, max_eq_right h.le]
  simp [pyMaxStep, h]

/-- If every element is present, Python max folds to the maximum. -/
theorem foldlM_pyMaxStep_all_some (xs : List (Option Int)) (a : Int)
    (h : ∀ x ∈ xs, x.isSome) :
    xs.foldlM pyMaxStep (some a) = some (some ((xs.filterMap id).foldl max a)) := by
  induction xs generalizing a with
  | nil => rfl
  | cons x xs ih =>
    obtain ⟨b, rfl⟩ := Option.isSome_iff_exists.mp (h x (by simp))
    have hx : ∀ y ∈ xs, y.isSome := fun y hy => h y (by simp [hy])
    simp only [List.foldlM_cons, pyMaxStep_some, Option.bind_eq_bind, Option.some_bind]
    rw [ih (max a b) hx]
    simp

/-- If some element is absent, Python max raises (models TypeError). -/
theorem foldlM_pyMaxStep_has_none (xs : List (Option Int)) (a : Int)
    (h : none ∈ xs) :
    xs.foldlM pyMaxStep (some a) = none := by
  induction xs generalizing a with
  | nil => cases h
  | cons x xs ih =>
    rcases List.mem_cons.mp h with hx | hx
    · subst hx
      rfl
    · cases x with
      | none => rfl
      | some b =>
        simp only [List.foldlM_cons, pyMaxStep_some, Option.bind_eq_bind, Option.some_bind]
        exact ih (max a b) hx

/-- C1: the claim fails on the code at the list [2, absent]: Python max
raises TypeError on the mixed list, so Functions._max returns None, while
the maximum of the present values is 2. -/
theorem C1_counterexample : fnMax [some 2, none] ≠ maxPresent [some 2, none] := by
  decide

/-- C1 (amended): the aggregate alarm severity equals the maximum of the
values only when every entry is present and the list is non-empty; if any
entry is absent, or the list is empty, Functions._max yields absent (None),
never zero. -/
theorem C1_amended (l : List (Option Int)) :
    (l ≠ [] → (∀ x ∈ l, x.isSome) → fnMax l = maxPresent l)
    ∧ (none ∈ l → fnMax l = none)
    ∧ (l = [] → fnMax l = none) := by
  refine ⟨?_, ?_, ?_⟩
  · intro hne hall
    cases l with
    | nil => exact absurd rfl hne
    | cons x xs =>
      obtain ⟨a, rfl⟩ := Option.isSome_iff_exists.mp (hall x (by simp))
      have hx : ∀ y ∈ xs, y.isSome := fun y hy => hall y (by simp [hy])
      simp only [fnMax, pyMax, foldlM_pyMaxStep_all_some xs a hx]
      simp [maxPresent, List.max?]
  · intro hmem
    cases l with
    | nil => cases hmem
    | cons x xs =>
      rcases List.mem_cons.mp hmem with hx | hx
      · subst hx
        cases xs with
        | nil => rfl
        | cons y ys => cases y <;> rfl
      · cases x with
        | none =>
          cases xs with
          | nil => cases hx
          | cons y ys => cases y <;> rfl
        | some a =>
          simp only [fnMax, pyMax, foldlM_pyMaxStep_has_none xs a hx]
  · intro h
    subst h
    rfl

/-- C1 amended witness: on the all-present list [1, 3, 2] the code and the
claimed maximum agree, and on the mixed list [1, absent] the result is
absent. -/
theorem C1_amended_witness :
    fnMax [some 1, some 3, some 2] = maxPresent [some 1, some 3, some 2]
    ∧ fnMax [some 1, none] = none :=
  ⟨(C1_amended [some 1, some 3, some 2]).1 (by decide) (by decide),
   (C1_amended [some 1, none]).2.1 (by decide)⟩

/-- In a pairwise strictly ascending list with at least two elements, the
head is strictly below the last element. -/
theorem head_lt_getLast_of_pairwise (x0 : ℚ) (xs : List ℚ) (hxs : xs ≠ [])
    (hasc : List.Pairwise (fun a b : ℚ => a < b) (x0 :: xs)) :
    x0 < (x0 :: xs).getLast (List.cons_ne_nil x0 xs) := by
  rw [List.getLast_cons hxs]
  exact (List.pairwise_cons.mp hasc).1 _ (List.getLast_mem hxs)

/-- C10: the piecewise-linear interpolation used for the current limits
saturates at the table endpoints: for equal-length tables with strictly
ascending breakpoints, a query at or below the first breakpoint returns
the first table value and a query at or above the last breakpoint returns
the last table value. -/
theorem C10_interpolate_saturates (X Y : List ℚ) (x : ℚ)
    (hlen : X.length = Y.length) (hX : X ≠ []) (hY : Y ≠ [])
    (hasc : List.Pairwise (fun a b : ℚ => a < b) X) :
    (x ≤ X.head hX → interpolate X Y x = some (Y.head hY))
    ∧ (X.getLast hX ≤ x → interpolate X Y x = some (Y.getLast hY)) := by
  cases X with
  | nil => exact absurd rfl hX
  | cons x0 xs =>
    cases Y with
    | nil => exact absurd rfl hY
    | cons y0 ys =>
      constructor
      · intro hle
        simp only [List.head_cons] at hle
        simp [interpolate, hlen, hle]
      · intro hge
        by_cases hle : x ≤ x0
        · have hxs : xs = [] := by
            by_contra hne
            have h1 := head_lt_getLast_of_pairwise x0 xs hne hasc
            have h2 : (x0 :: xs).getLast (List.cons_ne_nil x0 xs) ≤ x0 := le_trans hge hle
            exact absurd (lt_of_lt_of_le h1 h2) (lt_irrefl x0)
          subst hxs
          have hys : ys = [] := by
            cases ys with
            | nil => rfl
            | cons z zs => simp at hlen
          subst hys
          simp [interpolate, hle]
        · simp [interpolate, hlen, hle, hge]

/-- C10 witness: breakpoints [1, 2] with values [10, 20]; a query at 0
saturates to 10 and a query at 5 saturates to 20. -/
theorem C10_witness :
    interpolate [1, 2] [10, 20] 0 = some (([10, 20] : List ℚ).head (by decide))
    ∧ interpolate [1, 2] [10, 20] 5 = some (([10, 20] : List ℚ).getLast (by decide)) :=
  ⟨(C10_interpolate_saturates [1, 2] [10, 20] 0 (by decide) (by decide) (by decide)
      (by decide)).1 (by decide),
   (C10_interpolate_saturates [1, 2] [10, 20] 5 (by decide) (by decide) (by decide)
      (by decide)).2 (by decide)⟩

/-- C3: the Coulomb counter adds I·t/3600·e when charging and I·t/3600 when
discharging, and the stored charge always lands in [0, installedCapacity]
(for a nonnegative installed capacity). -/
theorem C3_coulomb_counter (own I t e cap : ℚ) (hcap : 0 ≤ cap) :
    updateOwnCharge own I t e cap
      = min (max (own + (if 0 < I then I * t / 3600 * e else I * t / 3600)) 0) cap
    ∧ 0 ≤ updateOwnCharge own I t e cap
    ∧ updateOwnCharge own I t e cap ≤ cap := by
  refine ⟨?_, ?_, ?_⟩
  · simp only [updateOwnCharge]
    by_cases h : 0 < I
    · rw [if_pos h, if_pos h]
      ring_nf
    · rw [if_neg h, if_neg h]
      ring_nf
  · simp only [updateOwnCharge]
    exact le_min (le_max_right _ _) hcap
  · simp only [updateOwnCharge]
    exact min_le_right _ _

/-- C3 witness: charging 1 Ah of stored charge at 2 A for 1800 s with
efficiency 1 against a 10 Ah installed capacity. -/
theorem C3_witness :
    updateOwnCharge 1 2 1800 1 10
      = min (max ((1 : ℚ) + (if (0:ℚ) < 2 then 2 * 1800 / 3600 * 1 else 2 * 1800 / 3600)) 0) 10
    ∧ 0 ≤ updateOwnCharge 1 2 1800 1 10
    ∧ updateOwnCharge 1 2 1800 1 10 ≤ 10 :=
  C3_coulomb_counter 1 2 1800 1 10 (by decide)

/-- Folding min over a list stays below the start and below each element. -/
theorem foldl_min_le (xs : List ℚ) (a : ℚ) :
    xs.foldl min a ≤ a ∧ ∀ x ∈ xs, xs.foldl min a ≤ x := by
  induction xs generalizing a with
  | nil => exact ⟨le_refl a, by simp⟩
  | cons x xs ih =>
    have h := ih (min a x)
    refine ⟨le_trans h.1 (min_le_left a x), ?_⟩
    intro y hy
    rcases List.mem_cons.mp hy with hy | hy
    · subst hy
      exact le_trans h.1 (min_le_right a y)
    · exact h.2 y hy

/-- C5: when the maximum cell voltage has reached MAX_CELL_VOLTAGE, the
published charge-voltage limit exists and never exceeds any battery's
(cell-sum voltage minus total cell excess above the ceiling), hence never
exceeds their minimum. Each battery is its (voltagesSum, cells) pair. -/
theorem C5_cvl_never_exceeds_reduced (ceiling cvb maxV : ℚ) (bats : List (ℚ × List ℚ))
    (hne : bats ≠ []) (hhigh : ceiling ≤ maxV) :
    ∃ r, maxChargeVoltagePublished ceiling maxV cvb
          (bats.map (fun b => chargeVoltageReduced ceiling b.1 b.2)) = some r
      ∧ ∀ b ∈ bats, r ≤ chargeVoltageReduced ceiling b.1 b.2 := by
  cases bats with
  | nil => exact absurd rfl hne
  | cons p ps =>
    refine ⟨min ((ps.map fun b => chargeVoltageReduced ceiling b.1 b.2).foldl min
        (chargeVoltageReduced ceiling p.1 p.2)) cvb, ?_, ?_⟩
    · simp [maxChargeVoltagePublished, ge_iff_le, hhigh, List.min?]
    · intro b hb
      have hfold := foldl_min_le (ps.map fun b => chargeVoltageReduced ceiling b.1 b.2)
        (chargeVoltageReduced ceiling p.1 p.2)
      rcases List.mem_cons.mp hb with hb | hb
      · subst hb
        exact le_trans (min_le_left _ _) hfold.1
      · exact le_trans (min_le_left _ _) (hfold.2 _ (List.mem_map_of_mem _ hb))

/-- C5 witness: one battery with cell-sum 51 and cells [4, 2] against a
cell ceiling of 3 while the maximum cell voltage 4 is above the ceiling. -/
theorem C5_witness :
    ∃ r, maxChargeVoltagePublished 3 4 50
          (([((51 : ℚ), [4, 2])] : List (ℚ × List ℚ)).map
            (fun b => chargeVoltageReduced 3 b.1 b.2)) = some r
      ∧ ∀ b ∈ ([((51 : ℚ), [4, 2])] : List (ℚ × List ℚ)),
          r ≤ chargeVoltageReduced 3 b.1 b.2 :=
  C5_cvl_never_exceeds_reduced 3 50 4 [(51, [4, 2])] (by decide) (by decide)

/-- While the latch is held and every minimum cell voltage stays at or
below floor plus margin, every published limit of the run is zero. -/
theorem dischargeRun_latched_all_zero (cfg : DischargeCfg) (trace : List (ℕ × ℚ))
    (hall : ∀ c ∈ trace, c.2 ≤ cfg.minCellVoltage + cfg.minCellHysteresis) :
    dischargeRun cfg true trace = trace.map (fun _ => some 0) := by
  induction trace with
  | nil => rfl
  | cons c rest ih =>
    have hc := hall c (List.mem_cons_self c rest)
    have hfd : fullyDischargedStep cfg true c.2 = true := by
      simp only [fullyDischargedStep]
      by_cases h1 : c.2 ≤ cfg.minCellVoltage
      · rw [if_pos h1]
      · rw [if_neg h1, if_neg (not_lt.mpr hc)]
    simp only [dischargeRun, dischargeCycle, hfd, List.map_cons]
    have hpub : maxDischargeCurrentPublished cfg true c.1 c.2 = some 0 := by
      simp [maxDischargeCurrentPublished]
    rw [hpub, ih (fun d hd => hall d (List.mem_cons_of_mem c hd))]

/-- C4: the discharge limit obeys the hysteresis latch: (i) a minimum cell
voltage at or below the floor latches the flag and publishes a zero limit
that cycle; (ii) once latched, every following cycle whose minimum cell
voltage stays at or below floor plus margin publishes zero; (iii) the
latch clears only when the voltage rises strictly above floor plus margin;
(iv) while unlatched with no module blocking discharge the limit is the
configured maximum times the interpolated fraction. -/
theorem C4_discharge_hysteresis (cfg : DischargeCfg) :
    (∀ (fd : Bool) (b : ℕ) (v : ℚ), v ≤ cfg.minCellVoltage →
      (dischargeCycle cfg fd b v).1 = true ∧ (dischargeCycle cfg fd b v).2 = some 0)
    ∧ (∀ trace : List (ℕ × ℚ),
        (∀ c ∈ trace, c.2 ≤ cfg.minCellVoltage + cfg.minCellHysteresis) →
        dischargeRun cfg true trace = trace.map (fun _ => some 0))
    ∧ (∀ v : ℚ, fullyDischargedStep cfg true v = false →
        cfg.minCellVoltage + cfg.minCellHysteresis < v)
    ∧ (∀ (fd : Bool) (v : ℚ), fullyDischargedStep cfg fd v = false →
        (dischargeCycle cfg fd 0 v).2
          = (interpolate cfg.limitingVoltage cfg.limitedCurrent v).map
              (fun y => cfg.maxDischargeCurrent * y)) := by
  refine ⟨?_, dischargeRun_latched_all_zero cfg, ?_, ?_⟩
  · intro fd b v hv
    have hfd : fullyDischargedStep cfg fd v = true := by
      simp only [fullyDischargedStep]
      rw [if_pos hv]
    constructor
    · simpa [dischargeCycle] using hfd
    · simp [dischargeCycle, hfd, maxDischargeCurrentPublished]
  · intro v hv
    simp only [fullyDischargedStep] at hv
    by_cases h1 : v ≤ cfg.minCellVoltage
    · rw [if_pos h1] at hv
      exact absurd hv (by simp)
    · rw [if_neg h1] at hv
      by_cases h2 : cfg.minCellVoltage + cfg.minCellHysteresis < v
      · exact h2
      · rw [if_neg h2] at hv
        exact absurd hv (by simp)
  · intro fd v hv
    simp [dischargeCycle, hv, maxDischargeCurrentPublished]

/-- C4 witness: at minimum cell voltage 2 the latch closes and the limit
is zero; a latched run over one cycle at voltage 3 (within the margin)
still publishes zero; unlatched at voltage 5 the limit follows the
interpolation. -/
theorem C4_witness :
    ((dischargeCycle dischargeCfgW false 0 2).1 = true
      ∧ (dischargeCycle dischargeCfgW false 0 2).2 = some 0)
    ∧ dischargeRun dischargeCfgW true [(0, 3)] = [((0 : ℕ), (3 : ℚ))].map (fun _ => some 0)
    ∧ (dischargeCycle dischargeCfgW false 0 5).2
        = (interpolate dischargeCfgW.limitingVoltage dischargeCfgW.limitedCurrent 5).map
            (fun y => dischargeCfgW.maxDischargeCurrent * y) :=
  ⟨(C4_discharge_hysteresis dischargeCfgW).1 false 0 2 (by decide),
   (C4_discharge_hysteresis dischargeCfgW).2.1 [(0, 3)]
     (by intro c hc; simp at hc; subst hc; with_unfolding_all decide),
   (C4_discharge_hysteresis dischargeCfgW).2.2.2 false 5 (by with_unfolding_all decide)⟩

/-- Folding additions of f over a list starting from an arbitrary value
totals the start plus the sum of the mapped list. -/
theorem foldl_add_eq_sum (f : BatteryReading → ℚ) (bats : List BatteryReading) (init : ℚ) :
    bats.foldl (fun acc b => acc + f b) init = init + (bats.map f).sum := by
  induction bats generalizing init with
  | nil => simp
  | cons b bs ih =>
    simp only [List.foldl_cons, List.map_cons, List.sum_cons, ih (init + f b)]
    ring

/-- C2: for a non-empty reading list, the published aggregate voltage and
temperature are the arithmetic means of the per-battery values, and the
published SoC (when not from the Coulomb counter) is the
installed-capacity-weighted mean. -/
theorem C2_aggregate_means (bats : List BatteryReading) (hne : bats ≠ []) :
    aggVoltage bats = (bats.map (fun b => b.voltage)).sum / bats.length
    ∧ aggTemperature bats = (bats.map (fun b => b.temperature)).sum / bats.length
    ∧ aggSocWeighted bats
        = (bats.map (fun b => b.soc * b.installedCapacity)).sum
          / (bats.map (fun b => b.installedCapacity)).sum := by
  refine ⟨?_, ?_, ?_⟩
  · simp [aggVoltage, accVoltage, foldl_add_eq_sum (fun b => b.voltage)]
  · simp [aggTemperature, accTemperature, foldl_add_eq_sum (fun b => b.temperature)]
  · simp [aggSocWeighted, accSocWeighted, accInstalledCapacity,
      foldl_add_eq_sum (fun b => b.soc * b.installedCapacity),
      foldl_add_eq_sum (fun b => b.installedCapacity)]

/-- C2 witness: two batteries of unequal installed capacity (100 Ah at 50%
and 200 Ah at 70%). -/
theorem C2_witness :
    aggVoltage [⟨48, 20, 50, 100⟩, ⟨52, 22, 70, 200⟩]
      = (([⟨48, 20, 50, 100⟩, ⟨52, 22, 70, 200⟩] : List BatteryReading).map
          (fun b => b.voltage)).sum / ([⟨48, 20, 50, 100⟩, ⟨52, 22, 70, 200⟩] : List BatteryReading).length
    ∧ aggTemperature [⟨48, 20, 50, 100⟩, ⟨52, 22, 70, 200⟩]
      = (([⟨48, 20, 50, 100⟩, ⟨52, 22, 70, 200⟩] : List BatteryReading).map
          (fun b => b.temperature)).sum / ([⟨48, 20, 50, 100⟩, ⟨52, 22, 70, 200⟩] : List BatteryReading).length
    ∧ aggSocWeighted [⟨48, 20, 50, 100⟩, ⟨52, 22, 70, 200⟩]
      = (([⟨48, 20, 50, 100⟩, ⟨52, 22, 70, 200⟩] : List BatteryReading).map
          (fun b => b.soc * b.installedCapacity)).sum
        / (([⟨48, 20, 50, 100⟩, ⟨52, 22, 70, 200⟩] : List BatteryReading).map
          (fun b => b.installedCapacity)).sum :=
  C2_aggregate_means [⟨48, 20, 50, 100⟩, ⟨52, 22, 70, 200⟩] (List.cons_ne_nil _ _)

/-- C6: the claim fails on the code: over two consecutive cycles with max
cell voltage at the ceiling there is a single rising edge of the latch
but the disable write to the OvervoltageFeedIn setting is issued twice —
the write is repeated on every latched cycle, not once per edge. -/
theorem C6_counterexample :
    totalDisableWrites
        (dynCVLRun 2 1 ⟨false, .notCached⟩ [(true, 2, 2), (true, 2, 2)]) = 2
    ∧ risingEdgeCount 2 false [(true, 2, 2), (true, 2, 2)] = 1
    ∧ ¬ totalDisableWrites
          (dynCVLRun 2 1 ⟨false, .notCached⟩ [(true, 2, 2), (true, 2, 2)])
        ≤ risingEdgeCount 2 false [(true, 2, 2), (true, 2, 2)] := by
  refine ⟨?_, ?_, ?_⟩ <;> with_unfolding_all decide

/-- C6 (amended): per cycle, the setting is read (and cached) exactly on a
rising edge with an empty cache and never re-read while latched; a
disable write is issued on every cycle whose max cell voltage is at or
above the ceiling (not merely once per rising edge); an enable write is
issued exactly when the voltage is below the ceiling, the cell spread is
under the threshold and the cached value was truthy, and it resets the
cache so the write happens only once per disable episode. -/
theorem C6_feedin_writes (ceiling diff : ℚ) (fs : Bool) (st : DynCVLState) (maxV minV : ℚ) :
    ((dynCVLStep ceiling diff fs st maxV minV).2.reads
      = if ceiling ≤ maxV ∧ st.dynamicCVL = false ∧ st.dcFeed = .notCached then 1 else 0)
    ∧ ((dynCVLStep ceiling diff fs st maxV minV).2.disableWrites
      = if ceiling ≤ maxV then 1 else 0)
    ∧ ((dynCVLStep ceiling diff fs st maxV minV).2.enableWrites
      = if ¬ ceiling ≤ maxV ∧ maxV - minV < diff ∧ st.dcFeed = .cached true then 1 else 0)
    ∧ ((dynCVLStep ceiling diff fs st maxV minV).2.enableWrites = 1 →
        (dynCVLStep ceiling diff fs st maxV minV).1.dcFeed = .notCached) := by
  obtain ⟨dyn, feed⟩ := st
  by_cases hv : ceiling ≤ maxV
  · cases dyn
    · cases feed <;> simp [dynCVLStep, hv]
    · simp [dynCVLStep, hv]
  · by_cases hs : maxV - minV < diff ∧ DCfeedCache.cached true = feed
    · simp [dynCVLStep, hv, hs.1, ← hs.2]
    · cases feed with
      | notCached => simp [dynCVLStep, hv]
      | cached v =>
        cases v
        · simp [dynCVLStep, hv]
        · have hns : ¬ maxV - minV < diff := by
            intro h
            exact hs ⟨h, rfl⟩
          simp [dynCVLStep, hv, hns]

/-- C6 amended witness: below the ceiling with a truthy cached value and
small spread, the enable write happens and the cache resets. -/
theorem C6_witness :
    ((dynCVLStep 2 1 true ⟨true, .cached true⟩ 1 1).2.reads
      = if (2:ℚ) ≤ 1 ∧ (⟨true, .cached true⟩ : DynCVLState).dynamicCVL = false
            ∧ (⟨true, .cached true⟩ : DynCVLState).dcFeed = .notCached then 1 else 0)
    ∧ ((dynCVLStep 2 1 true ⟨true, .cached true⟩ 1 1).2.disableWrites
      = if (2:ℚ) ≤ 1 then 1 else 0)
    ∧ ((dynCVLStep 2 1 true ⟨true, .cached true⟩ 1 1).2.enableWrites
      = if ¬ (2:ℚ) ≤ 1 ∧ (1:ℚ) - 1 < 1
            ∧ (⟨true, .cached true⟩ : DynCVLState).dcFeed = .cached true then 1 else 0)
    ∧ (dynCVLStep 2 1 true ⟨true, .cached true⟩ 1 1).1.dcFeed = .notCached :=
  ⟨(C6_feedin_writes 2 1 true ⟨true, .cached true⟩ 1 1).1,
   (C6_feedin_writes 2 1 true ⟨true, .cached true⟩ 1 1).2.1,
   (C6_feedin_writes 2 1 true ⟨true, .cached true⟩ 1 1).2.2.1,
   (C6_feedin_writes 2 1 true ⟨true, .cached true⟩ 1 1).2.2.2 (by with_unfolding_all decide)⟩

/-- C7: with the normal target strictly below the balancing target the
machine follows exactly the cycle 0 → 1 → 2 → 0: (i) Inactive stays
Inactive while the wrapped day count is below the repetition interval;
(ii) Inactive becomes pending once the day count reaches the interval
(and advances to GoalReached the same pass only if the goal condition
already holds); (iii) Pending advances to GoalReached exactly when the
voltage reaches the balancing target with the spread under the threshold;
(iv) GoalReached persists until the voltage drops to the normal target;
(v) on that drop the machine returns to Inactive and persists today's
day-of-year. No other pass persists a day. -/
theorem C7_balancing_cycle (cfg : BalancingCfg) (last today : ℤ) (V maxV minV : ℚ)
    (hlt : cfg.cvlNormal < cfg.cvlBalancing) :
    (timeUnbalanced today last < cfg.balancingRepetition →
      balancingStep cfg 0 last today V maxV minV = ⟨0, cfg.cvlNormal, none⟩)
    ∧ (cfg.balancingRepetition ≤ timeUnbalanced today last →
      balancingStep cfg 0 last today V maxV minV
        = ⟨if cfg.cvlBalancing ≤ V ∧ maxV - minV < cfg.cellDiffMax then 2 else 1,
           cfg.cvlBalancing, none⟩)
    ∧ (balancingStep cfg 1 last today V maxV minV
        = ⟨if cfg.cvlBalancing ≤ V ∧ maxV - minV < cfg.cellDiffMax then 2 else 1,
           cfg.cvlBalancing, none⟩)
    ∧ (cfg.cvlNormal < V →
      balancingStep cfg 2 last today V maxV minV = ⟨2, cfg.cvlBalancing, none⟩)
    ∧ (V ≤ cfg.cvlNormal →
      balancingStep cfg 2 last today V maxV minV = ⟨0, cfg.cvlNormal, some today⟩) := by
  have hgoal : cfg.cvlBalancing ≤ V ∧ maxV - minV < cfg.cellDiffMax → ¬ V ≤ cfg.cvlNormal :=
    fun hg hle => absurd (lt_of_lt_of_le hlt (le_trans hg.1 hle)) (lt_irrefl _)
  refine ⟨?_, ?_, ?_, ?_, ?_⟩
  · intro htu
    simp [balancingStep, hlt, not_le.mpr htu]
  · intro htu
    by_cases hg : cfg.cvlBalancing ≤ V ∧ maxV - minV < cfg.cellDiffMax
    · simp [balancingStep, hlt, htu, hg, hgoal hg]
    · simp [balancingStep, hlt, htu, hg]
  · by_cases hg : cfg.cvlBalancing ≤ V ∧ maxV - minV < cfg.cellDiffMax
    · simp [balancingStep, hlt, hg, hgoal hg]
    · simp [balancingStep, hlt, hg]
  · intro hV
    simp [balancingStep, hlt, not_le.mpr hV]
  · intro hV
    simp [balancingStep, hlt, hV]

/-- C7 witness: with normal target 52 and balancing target 56, interval 30
days and last balancing on day 0: on day 40 the machine leaves Inactive,
and from GoalReached a voltage drop to 50 returns it to Inactive and
persists day 40. -/
theorem C7_witness :
    balancingStep ⟨52, 56, 30, 1⟩ 0 0 40 54 3 3
      = ⟨if (56:ℚ) ≤ 54 ∧ (3:ℚ) - 3 < 1 then 2 else 1, 56, none⟩
    ∧ balancingStep ⟨52, 56, 30, 1⟩ 2 0 40 50 3 3 = ⟨0, 52, some 40⟩ :=
  ⟨(C7_balancing_cycle ⟨52, 56, 30, 1⟩ 0 40 54 3 3 (by decide)).2.1 (by decide),
   (C7_balancing_cycle ⟨52, 56, 30, 1⟩ 0 40 50 3 3 (by decide)).2.2.2.2 (by decide)⟩

/-- A run of consecutive failures turns fatal exactly when it drives the
counter beyond the budget. -/
theorem fatal_mem_updateRun (α : Type) (budget : ℕ) :
    ∀ (n t : ℕ), t ≤ budget →
      (CycleOutcome.fatal ∈ updateRun budget t (List.replicate n (none : Option α))
        ↔ budget < t + n) := by
  intro n
  induction n with
  | zero =>
    intro t ht
    simp only [List.replicate_zero, updateRun, List.not_mem_nil, false_iff]
    omega
  | succ n ih =>
    intro t ht
    simp only [List.replicate_succ, updateRun]
    by_cases h : budget < t + 1
    · simp only [updateCycle, if_pos h, List.mem_cons]
      constructor
      · intro _
        omega
      · intro _
        exact Or.inl trivial
    · simp only [updateCycle, if_neg h, List.mem_cons]
      rw [ih (t + 1) (by omega)]
      constructor
      · rintro (hc | hc)
        · cases hc
        · omega
      · intro hc
        exact Or.inr (by omega)

/-- C8: a failed read pass increments the failure counter, turns fatal
exactly when the counter exceeds the budget and otherwise retries; it
never publishes a snapshot; a successful pass resets the counter to zero
and publishes; and a run of consecutive failures from a fresh counter
turns fatal exactly when it is longer than the budget. -/
theorem C8_cycle_failure_policy (α : Type) (budget t n : ℕ) (snap : α) :
    (updateCycle t budget (none : Option α)).1 = t + 1
    ∧ ((updateCycle t budget (none : Option α)).2 = CycleOutcome.fatal ↔ budget < t + 1)
    ∧ ((updateCycle t budget (none : Option α)).2 = CycleOutcome.retry ↔ t + 1 ≤ budget)
    ∧ ((updateCycle t budget (none : Option α)).2 = CycleOutcome.fatal
        ∨ (updateCycle t budget (none : Option α)).2 = CycleOutcome.retry)
    ∧ updateCycle t budget (some snap) = (0, CycleOutcome.published snap)
    ∧ (CycleOutcome.fatal ∈ updateRun budget 0 (List.replicate n (none : Option α))
        ↔ budget < n) := by
  refine ⟨?_, ?_, ?_, ?_, rfl, ?_⟩
  · simp only [updateCycle]
    by_cases h : budget < t + 1 <;> simp [h]
  · simp only [updateCycle]
    by_cases h : budget < t + 1 <;> simp [h] <;> omega
  · simp only [updateCycle]
    by_cases h : budget < t + 1 <;> simp [h] <;> omega
  · simp only [updateCycle]
    by_cases h : budget < t + 1 <;> simp [h]
  · rw [fatal_mem_updateRun α budget n 0 (Nat.zero_le budget)]
    omega

/-- The other three discovery states do conform to the re-poll-then-fatal
scheme: below the budget a miss increments the counter and re-polls, at
the budget a miss is fatal. -/
theorem find_steps_conform (searchTrials budget n m : ℕ) :
    (searchTrials < budget →
      findSettingsStep searchTrials budget false = (searchTrials + 1, FindNext.repoll)
      ∧ (n ≠ m → findBatteriesStep searchTrials budget n m false = (searchTrials + 1, FindNext.repoll))
      ∧ (n ≠ m → findMpptsStep searchTrials budget n m = (searchTrials + 1, FindNext.repoll)))
    ∧ (budget ≤ searchTrials →
      findSettingsStep searchTrials budget false = (searchTrials, FindNext.fatal)
      ∧ (n ≠ m → findBatteriesStep searchTrials budget n m false = (searchTrials, FindNext.fatal))
      ∧ (n ≠ m → findMpptsStep searchTrials budget n m = (searchTrials, FindNext.fatal))) := by
  constructor
  · intro hlt
    exact ⟨by simp [findSettingsStep, hlt],
      fun hnm => by simp [findBatteriesStep, hnm, hlt],
      fun hnm => by simp [findMpptsStep, hnm, hlt]⟩
  · intro hge
    exact ⟨by simp [findSettingsStep, Nat.not_lt.mpr hge],
      fun hnm => by simp [findBatteriesStep, hnm, Nat.not_lt.mpr hge],
      fun hnm => by simp [findMpptsStep, hnm, Nat.not_lt.mpr hge]⟩

/-- C9: the claim fails on _find_multis as coded: when no multi/quattro is
found the state schedules the cyclic _update phase instead of re-polling;
for no input does it re-poll or exit, so its trial budget can never be
exhausted and discovery exhaustion is unreachable in that state. -/
theorem C9_find_multis_never_retries (searchTrials budget : ℕ) :
    findMultisStep searchTrials budget false = (searchTrials, FindNext.toUpdate)
    ∧ ∀ found : Bool,
        (findMultisStep searchTrials budget found).2 = FindNext.toFindMppts
        ∨ (findMultisStep searchTrials budget found).2 = FindNext.toUpdate := by
  constructor
  · rfl
  · intro found
    cases found
    · exact Or.inr rfl
    · exact Or.inl rfl
